import Mathlib

/-!
Shallow embedding of `mega_scraper.py` (class `MegaScraper`): the crawl
frontier, link/image extraction, the `scrape` loop, and the `download`
loop with its naming/layout policy.  URLs are modelled as `String`s, the
mutable Python sets as `Finset String`, the external fetch collaborator
as a function from URLs to parsed pages (or `Except` for the fallible
variant), the regex filters (used by the source only through
`re.search`) as boolean predicates on strings, and the arbitrary-order
`set.pop()` as a choice function that is assumed to return a member of
any nonempty set.  File-system effects of `download` are modelled as a
set of existing directories plus an ordered log of written files.
-/

namespace Mega

/-- Models Python `str.startswith`: the pattern is a prefix of the string. -/
def strStartsWith (s p : String) : Bool := decide (p.data <+: s.data)

/-- Models Python `str.endswith`: the pattern is a suffix of the string. -/
def strEndsWith (s p : String) : Bool := decide (p.data <:+ s.data)

/-- Models Python `str.zfill`: left-pad with zeros up to the given width. -/
def zfill (s : String) (w : Nat) : String :=
  if s.length < w then String.mk (List.replicate (w - s.length) '0') ++ s else s

/-- Models Python `os.path.join` for two components. -/
def osPathJoin (a b : String) : String :=
  if strStartsWith b "/" then b
  else if a = "" ∨ strEndsWith a "/" then a ++ b
  else a ++ "/" ++ b

/-- Characters allowed in a URL scheme by `urllib.parse` (letters, digits, `+`, `-`, `.`). -/
def isSchemeChar (c : Char) : Bool := c.isAlpha || c.isDigit || c = '+' || c = '-' || c = '.'

/-- Models the scheme-splitting step of `urllib.parse.urlparse`: returns the
lower-cased scheme and the remainder, or an empty scheme and the whole URL
when no valid scheme prefix exists. -/
def schemeSplit (url : String) : String × String :=
  let cs := url.data
  let pre := cs.takeWhile (fun c => c != ':')
  match cs.drop pre.length with
  | [] => ("", url)
  | _ :: rest =>
    match pre with
    | [] => ("", url)
    | c :: cs2 =>
      if c.isAlpha && (c :: cs2).all isSchemeChar then
        (String.mk ((c :: cs2).map Char.toLower), String.mk rest)
      else ("", url)

/-- Models `urllib.parse.urlparse(url).scheme`. -/
def urlScheme (url : String) : String := (schemeSplit url).1

/-- Models `urllib.parse.urlparse(url).netloc`: after the scheme, a `//`
introduces the network location, which extends to the first `/`, `?` or `#`. -/
def urlNetloc (url : String) : String :=
  let r := (schemeSplit url).2
  if strStartsWith r "//" then
    String.mk ((r.data.drop 2).takeWhile (fun c => !(c == '/' || c == '?' || c == '#')))
  else ""

/-- Output structure option: `'flat'` or `'grouped'`. -/
inductive OutputStructure where
  | flat
  | grouped
deriving DecidableEq

/-- Output naming option: `'keep'` or `'numerical'`. -/
inductive OutputNaming where
  | keep
  | numerical
deriving DecidableEq

/-- The immutable configuration taken by `MegaScraper.__init__`.  The two
regexes appear in the source only through `re.search(regex, s)`, so they are
embedded as boolean predicates on strings. -/
structure Config where
  seed : String
  regexPages : String → Bool
  regexImages : String → Bool
  minWidth : Nat
  minHeight : Nat
  outputFolderpath : String
  outputStructure : OutputStructure
  outputNaming : OutputNaming
  imagesPerFolder : Nat
  folderInitialNum : Nat

/-- `self._root`, computed once in `__init__` from the parsed seed as
`'scheme://netloc'`. -/
def rootOf (cfg : Config) : String := urlScheme cfg.seed ++ "://" ++ urlNetloc cfg.seed

/-- The mutable state of a `MegaScraper` object: `_explored`, `_unexplored`,
`_images_urls` (the discovered images), `_downloaded`, `_downloaded_idx`. -/
structure CrawlState where
  explored : Finset String
  unexplored : Finset String
  imagesUrls : Finset String
  downloaded : Finset String
  downloadedIdx : Nat
deriving DecidableEq

/-- The state set up by `__init__`: nothing explored, the seed pending,
no images discovered or downloaded, download index 1. -/
def initState (cfg : Config) : CrawlState :=
  { explored := ∅
    unexplored := {cfg.seed}
    imagesUrls := ∅
    downloaded := ∅
    downloadedIdx := 1 }

/-- A parsed page (the BeautifulSoup tree), reduced to what the source
reads from it: the `href` attribute of each `<a>` element and the `src`
attribute of each `<img>` element (`none` when the attribute is absent). -/
structure Page where
  anchors : List (Option String)
  imgs : List (Option String)

/-- Resolution of a relative link in `_extract_unexplored_pages` /
`_extract_images_urls`: an href starting with `/` is prefixed with the root. -/
def resolveHref (root href : String) : String :=
  if strStartsWith href "/" then root ++ href else href

/-- The per-anchor body of the loop in `_extract_unexplored_pages`: skip a
missing or empty (falsy) href, resolve it, and keep it when it is not yet
explored and its netloc equals the seed netloc. -/
def anchorCandidate (cfg : Config) (explored : Finset String) (o : Option String) :
    Option String :=
  match o with
  | none => none
  | some href =>
    if href = "" then none
    else if resolveHref (rootOf cfg) href ∉ explored ∧
        urlNetloc (resolveHref (rootOf cfg) href) = urlNetloc cfg.seed then
      some (resolveHref (rootOf cfg) href)
    else none

/-- `MegaScraper._extract_unexplored_pages`. -/
def extractUnexploredPages (cfg : Config) (explored : Finset String) (page : Page) :
    Finset String :=
  (page.anchors.filterMap (anchorCandidate cfg explored)).toFinset

/-- The per-image body of the loop in `_extract_images_urls`: skip a missing
or empty (falsy) src or one ending in `.gif`, resolve it, and keep it when
the image regex matches. -/
def imageCandidate (cfg : Config) (o : Option String) : Option String :=
  match o with
  | none => none
  | some src =>
    if src = "" then none
    else if strEndsWith src ".gif" then none
    else if cfg.regexImages (resolveHref (rootOf cfg) src) then
      some (resolveHref (rootOf cfg) src)
    else none

/-- `MegaScraper._extract_images_urls`. -/
def extractImagesUrls (cfg : Config) (page : Page) : Finset String :=
  (page.imgs.filterMap (imageCandidate cfg)).toFinset

/-- A choice function standing for the arbitrary element returned by
Python's `set.pop()`. -/
def Choose : Type := Finset String → String

/-- A choice function is valid when it returns a member of every nonempty set. -/
def validChoose (ch : Choose) : Prop := ∀ t : Finset String, t ≠ ∅ → ch t ∈ t

/-- A concrete valid choice function (the minimum in the string order),
used to run the model on concrete inputs. -/
def chooseMin : Choose := fun t => if h : t.Nonempty then t.min' h else ""

/-- One iteration of the `while self._unexplored` loop in `scrape`, after the
URL has been popped and the page fetched: union the extracted links into
`unexplored`, extend the image accumulator when the page regex matches the
URL, and add the URL to `explored`. -/
def scrapeStep (cfg : Config) (page : Page) (url : String) (s : CrawlState)
    (acc : Finset String) : CrawlState × Finset String :=
  let unex := (s.unexplored.erase url) ∪ extractUnexploredPages cfg s.explored page
  let acc2 := if cfg.regexPages url then acc ∪ extractImagesUrls cfg page else acc
  ({ s with unexplored := unex, explored := insert url s.explored }, acc2)

/-- Result of the `scrape` loop: the state, the image accumulator (for the
wrapper: the returned delta), and the ordered list of URLs fetched. -/
structure ScrapeRes where
  state : CrawlState
  images : Finset String
  trace : List String

/-- The `while self._unexplored` loop of `scrape`, bounded by `max_pages`
iterations (the source counts `num_pages` and breaks at `max_pages`).
`tr` is an instrumentation trace of the URLs fetched, in order. -/
def scrapeLoop (cfg : Config) (fetch : String → Page) (ch : Choose) :
    Nat → CrawlState → Finset String → List String → ScrapeRes
  | 0, s, acc, tr => ⟨s, acc, tr⟩
  | Nat.succ n, s, acc, tr =>
    if s.unexplored = ∅ then ⟨s, acc, tr⟩
    else
      let url := ch s.unexplored
      let p := scrapeStep cfg (fetch url) url s acc
      scrapeLoop cfg fetch ch n p.1 p.2 (tr ++ [url])

/-- `MegaScraper.scrape`: run the loop, then return the images found this
call minus the already-known ones, and union the accumulator into
`self._images_urls`. -/
def scrape (cfg : Config) (fetch : String → Page) (ch : Choose) (maxPages : Nat)
    (s : CrawlState) : ScrapeRes :=
  let r := scrapeLoop cfg fetch ch maxPages s ∅ []
  ⟨{ r.state with imagesUrls := r.state.imagesUrls ∪ r.images },
    r.images \ s.imagesUrls, r.trace⟩

/-- Result of a sequence of `scrape` calls: final state, the per-call
returned sets, and the concatenated fetch traces. -/
structure SeqRes where
  state : CrawlState
  deltas : List (Finset String)
  trace : List String

/-- A sequence of `scrape` calls against one state, each with its own page
budget and pop choices. -/
def scrapeSeq (cfg : Config) (fetch : String → Page) :
    List (Nat × Choose) → CrawlState → SeqRes
  | [], s => ⟨s, [], []⟩
  | c :: cs, s =>
    let r := scrape cfg fetch c.2 c.1 s
    let rest := scrapeSeq cfg fetch cs r.state
    ⟨rest.state, r.images :: rest.deltas, r.trace ++ rest.trace⟩

/-- The `scrape` loop with a fallible fetch collaborator (`requests.get`
raising).  On a fetch failure the exception propagates: the popped URL has
already been removed from `unexplored`, nothing else of that iteration
happens, and the local image accumulator is abandoned.  The error payload
records the offending URL, the state as mutated so far, and the trace of
pages fetched before the failure. -/
def scrapeLoopE (cfg : Config) (fetch : String → Except String Page) (ch : Choose) :
    Nat → CrawlState → Finset String → List String →
      Except (String × CrawlState × List String) ScrapeRes
  | 0, s, acc, tr => .ok ⟨s, acc, tr⟩
  | Nat.succ n, s, acc, tr =>
    if s.unexplored = ∅ then .ok ⟨s, acc, tr⟩
    else
      let url := ch s.unexplored
      match fetch url with
      | .error _ => .error (url, { s with unexplored := s.unexplored.erase url }, tr)
      | .ok page =>
        let p := scrapeStep cfg page url s acc
        scrapeLoopE cfg fetch ch n p.1 p.2 (tr ++ [url])

/-- `MegaScraper.scrape` with a fallible fetch: on success the accumulator is
committed to `self._images_urls` and the delta returned; on failure the
exception surfaces and `self._images_urls` is left untouched. -/
def scrapeE (cfg : Config) (fetch : String → Except String Page) (ch : Choose)
    (maxPages : Nat) (s : CrawlState) :
    Except (String × CrawlState × List String) ScrapeRes :=
  match scrapeLoopE cfg fetch ch maxPages s ∅ [] with
  | .error e => .error e
  | .ok r =>
    .ok ⟨{ r.state with imagesUrls := r.state.imagesUrls ∪ r.images },
      r.images \ s.imagesUrls, r.trace⟩

/-- Result of `download`: the state, the set of existing directories (the
file-system model), the ordered log of files written as (image URL, file
path) pairs, and the ordered list of image URLs fetched and decoded. -/
structure DlRes where
  state : CrawlState
  dirs : Finset String
  saved : List (String × String)
  attempts : List String

/-- The file-name choice of `download` (source lines deciding the name of
the downloaded image): `keep` takes the last `/`-separated segment of the
image URL, `numerical` produces `'idx.jpg'` from the current download index. -/
def dlFilename (cfg : Config) (url : String) (idx : Nat) : String :=
  match cfg.outputNaming with
  | .keep => (url.splitOn "/").getLastD ""
  | .numerical => toString idx ++ ".jpg"

/-- The destination-path choice of `download` (source lines deciding the
folder structure): `flat` joins the output root with the file name;
`grouped` computes the four-digit folder `(idx - 1) / imagesPerFolder +
folderInitialNum`, creates it if absent, and joins root, folder and file
name.  Returns the file path and the updated directory set. -/
def dlFilepathDirs (cfg : Config) (idx : Nat) (dirs : Finset String)
    (filename : String) : String × Finset String :=
  match cfg.outputStructure with
  | .flat => (osPathJoin cfg.outputFolderpath filename, dirs)
  | .grouped =>
    let foldername := zfill (toString ((idx - 1) / cfg.imagesPerFolder
      + cfg.folderInitialNum)) 4
    let folderpath := osPathJoin cfg.outputFolderpath foldername
    (osPathJoin folderpath filename,
      if folderpath ∈ dirs then dirs else insert folderpath dirs)

/-- The full destination path written for the k-th saved image (1-based)
under grouped structure and numerical naming. -/
def groupedPath (cfg : Config) (k : Nat) : String :=
  osPathJoin (osPathJoin cfg.outputFolderpath
      (zfill (toString ((k - 1) / cfg.imagesPerFolder + cfg.folderInitialNum)) 4))
    (toString k ++ ".jpg")

/-- The `for _ in range(how_many)` loop of `download`: recompute the
candidate set, stop when it is empty, pop an arbitrary candidate, decode it
(dimensions given by `dims`), mark it downloaded, and when it passes the
size filter compute the file name and folder per the naming/layout policy
and write it. -/
def downloadLoop (cfg : Config) (dims : String → Nat × Nat) (ch : Choose) :
    Nat → CrawlState → Finset String → List (String × String) → List String → DlRes
  | 0, s, dirs, saved, att => ⟨s, dirs, saved, att⟩
  | Nat.succ n, s, dirs, saved, att =>
    let cands := s.imagesUrls \ s.downloaded
    if cands = ∅ then ⟨s, dirs, saved, att⟩
    else
      let url := ch cands
      let wh := dims url
      let s2 := { s with downloaded := insert url s.downloaded }
      let att2 := att ++ [url]
      if cfg.minWidth ≤ wh.1 ∧ cfg.minHeight ≤ wh.2 then
        let fp := dlFilepathDirs cfg s2.downloadedIdx dirs
          (dlFilename cfg url s2.downloadedIdx)
        downloadLoop cfg dims ch n { s2 with downloadedIdx := s2.downloadedIdx + 1 }
          fp.2 (saved ++ [(url, fp.1)]) att2
      else
        downloadLoop cfg dims ch n s2 dirs saved att2

/-- `MegaScraper.download`: `how_many` is any integer (only its intness is
asserted); the output root is created when absent, then the loop runs
`how_many` times (zero times when `how_many ≤ 0`, as `range` is empty). -/
def download (cfg : Config) (dims : String → Nat × Nat) (ch : Choose)
    (howMany : Int) (s : CrawlState) (dirs : Finset String) : DlRes :=
  let dirs2 := if cfg.outputFolderpath ∈ dirs then dirs else insert cfg.outputFolderpath dirs
  downloadLoop cfg dims ch howMany.toNat s dirs2 [] []

/-- A sequence of `download` calls against one state, concatenating the
write logs and attempt lists. -/
def downloadSeq (cfg : Config) (dims : String → Nat × Nat) :
    List (Int × Choose) → CrawlState → Finset String → DlRes
  | [], s, dirs => ⟨s, dirs, [], []⟩
  | c :: cs, s, dirs =>
    let r := download cfg dims c.2 c.1 s dirs
    let rest := downloadSeq cfg dims cs r.state r.dirs
    ⟨rest.state, rest.dirs, r.saved ++ rest.saved, r.attempts ++ rest.attempts⟩

/-- All same-netloc links of a page, before the not-yet-explored filter
(the extraction run with an empty explored set). -/
def pageLinksAll (cfg : Config) (page : Page) : Finset String :=
  extractUnexploredPages cfg ∅ page

/-- The images contributed by an ordered list of fetched pages: for each
page whose URL matches the page regex, the images extracted from it. -/
def traceImages (cfg : Config) (fetch : String → Page) : List String → Finset String
  | [] => ∅
  | u :: l =>
    (if cfg.regexPages u then extractImagesUrls cfg (fetch u) else ∅)
      ∪ traceImages cfg fetch l

/-- The images contributed by a set of pages (order-free form of
`traceImages`). -/
def imagesOfSet (cfg : Config) (fetch : String → Page) (T : Finset String) :
    Finset String :=
  T.biUnion fun p => if cfg.regexPages p then extractImagesUrls cfg (fetch p) else ∅

/-- Union of a list of sets (the per-call deltas of a call sequence). -/
def unionDeltas (l : List (Finset String)) : Finset String := l.foldr (· ∪ ·) ∅

/-- A set of pages is link-closed when it contains every same-netloc link
of each of its pages. -/
def closedUnder (cfg : Config) (fetch : String → Page) (T : Finset String) : Prop :=
  ∀ p ∈ T, pageLinksAll cfg (fetch p) ⊆ T

/-- The frontier invariant: every same-netloc link of an explored page is
explored or pending.  It holds for the freshly constructed state and is
preserved by `scrape`. -/
def goodState (cfg : Config) (fetch : String → Page) (s : CrawlState) : Prop :=
  ∀ p ∈ s.explored, pageLinksAll cfg (fetch p) ⊆ s.explored ∪ s.unexplored

/-- Concrete configuration used to run the model: seed `https://a.com/`,
both regexes matching everything, no size minimum, flat/keep output. -/
def cfgA : Config :=
  { seed := "https://a.com/"
    regexPages := fun _ => true
    regexImages := fun _ => true
    minWidth := 0
    minHeight := 0
    outputFolderpath := "scraped"
    outputStructure := OutputStructure.flat
    outputNaming := OutputNaming.keep
    imagesPerFolder := 100
    folderInitialNum := 1 }

/-- A site whose every page links to itself via the relative href `/`. -/
def fetchSelf : String → Page := fun _ => ⟨[some "/"], []⟩

/-- A fallible fetch: the seed page (one same-site link `/b`, one image
`/i.png`) loads, every other page errors. -/
def fetchErr : String → Except String Page := fun u =>
  if u = "https://a.com/" then Except.ok ⟨[some "/b"], [some "/i.png"]⟩
  else Except.error "connection error"

/-- The state left behind by the failing `scrape` run against `fetchErr`. -/
def errSt : CrawlState :=
  { explored := {"https://a.com/"}
    unexplored := ∅
    imagesUrls := ∅
    downloaded := ∅
    downloadedIdx := 1 }

/-- Configuration whose seed is `https://e.com/` (https scheme). -/
def cfgB : Config := { cfgA with seed := "https://e.com/" }

/-- A site whose pages carry one absolute link with the same host as
`cfgB`'s seed but the `http` scheme. -/
def fetchScheme : String → Page := fun _ => ⟨[some "http://e.com/p"], []⟩

/-- A site of leaf pages: no links, one image `/i.png`. -/
def fetchLeaf : String → Page := fun _ => ⟨[], [some "/i.png"]⟩

/-- `cfgA` switched to grouped structure and numerical naming, two images
per folder. -/
def cfgGN : Config :=
  { cfgA with
    outputStructure := OutputStructure.grouped
    outputNaming := OutputNaming.numerical
    imagesPerFolder := 2 }

/-- A state holding one discovered image and nothing else. -/
def stImgs : CrawlState :=
  { explored := ∅
    unexplored := ∅
    imagesUrls := {"https://a.com/1.png"}
    downloaded := ∅
    downloadedIdx := 1 }

/-- Image dimensions used by concrete download runs: every image is 5x5. -/
def dimsBig : String → Nat × Nat := fun _ => (5, 5)

/-! ### Basic lemmas about the extraction functions -/

theorem chooseMin_valid : validChoose chooseMin := by
  intro t ht
  have h : t.Nonempty := Finset.nonempty_iff_ne_empty.mpr ht
  simp only [chooseMin, dif_pos h]
  exact t.min'_mem h

theorem anchorCandidate_eq_some (cfg : Config) (E : Finset String) (o : Option String)
    (u : String) :
    anchorCandidate cfg E o = some u ↔
      ∃ h, o = some h ∧ h ≠ "" ∧ resolveHref (rootOf cfg) h = u ∧
        u ∉ E ∧ urlNetloc u = urlNetloc cfg.seed := by
  cases o with
  | none => simp [anchorCandidate]
  | some href =>
    by_cases h0 : href = ""
    · subst h0
      simp [anchorCandidate]
    · by_cases h1 : resolveHref (rootOf cfg) href ∉ E ∧
          urlNetloc (resolveHref (rootOf cfg) href) = urlNetloc cfg.seed
      · simp only [anchorCandidate, if_neg h0, if_pos h1, Option.some.injEq]
        constructor
        · rintro rfl
          exact ⟨href, rfl, h0, rfl, h1.1, h1.2⟩
        · rintro ⟨h2, he, _, hr, _, _⟩
          subst he
          exact hr
      · simp only [anchorCandidate, if_neg h0, if_neg h1]
        constructor
        · intro h
          exact Option.noConfusion h
        · rintro ⟨h2, he, _, hr, hu1, hu2⟩
          simp only [Option.some.injEq] at he
          subst he
          subst hr
          exact absurd ⟨hu1, hu2⟩ h1

theorem mem_extractUnexploredPages (cfg : Config) (E : Finset String) (page : Page)
    (u : String) :
    u ∈ extractUnexploredPages cfg E page ↔
      ∃ h, some h ∈ page.anchors ∧ h ≠ "" ∧ resolveHref (rootOf cfg) h = u ∧
        u ∉ E ∧ urlNetloc u = urlNetloc cfg.seed := by
  simp only [extractUnexploredPages, List.mem_toFinset, List.mem_filterMap]
  constructor
  · rintro ⟨o, ho, hc⟩
    obtain ⟨h, rfl, hprops⟩ := (anchorCandidate_eq_some cfg E o u).mp hc
    exact ⟨h, ho, hprops⟩
  · rintro ⟨h, hmem, hne, hr, hu1, hu2⟩
    exact ⟨some h, hmem,
      (anchorCandidate_eq_some cfg E (some h) u).mpr ⟨h, rfl, hne, hr, hu1, hu2⟩⟩

theorem mem_pageLinksAll (cfg : Config) (page : Page) (u : String) :
    u ∈ pageLinksAll cfg page ↔
      ∃ h, some h ∈ page.anchors ∧ h ≠ "" ∧ resolveHref (rootOf cfg) h = u ∧
        urlNetloc u = urlNetloc cfg.seed := by
  rw [pageLinksAll, mem_extractUnexploredPages]
  simp

theorem extract_subset_pageLinksAll (cfg : Config) (E : Finset String) (page : Page) :
    extractUnexploredPages cfg E page ⊆ pageLinksAll cfg page := by
  intro u hu
  rw [mem_extractUnexploredPages] at hu
  rw [mem_pageLinksAll]
  obtain ⟨h, h1, h2, h3, _, h5⟩ := hu
  exact ⟨h, h1, h2, h3, h5⟩

theorem pageLinksAll_mem_extract (cfg : Config) (E : Finset String) (page : Page)
    (u : String) (hu : u ∈ pageLinksAll cfg page) (hE : u ∉ E) :
    u ∈ extractUnexploredPages cfg E page := by
  rw [mem_pageLinksAll] at hu
  rw [mem_extractUnexploredPages]
  obtain ⟨h, h1, h2, h3, h5⟩ := hu
  exact ⟨h, h1, h2, h3, hE, h5⟩

theorem imageCandidate_eq_some (cfg : Config) (o : Option String) (u : String) :
    imageCandidate cfg o = some u ↔
      ∃ src, o = some src ∧ src ≠ "" ∧ strEndsWith src ".gif" = false ∧
        resolveHref (rootOf cfg) src = u ∧ cfg.regexImages u = true := by
  cases o with
  | none => simp [imageCandidate]
  | some src =>
    by_cases h0 : src = ""
    · subst h0
      simp [imageCandidate]
    · by_cases h1 : strEndsWith src ".gif"
      · simp only [imageCandidate, if_neg h0, if_pos h1]
        constructor
        · intro h
          exact Option.noConfusion h
        · rintro ⟨s2, he, _, hg, _, _⟩
          simp only [Option.some.injEq] at he
          subst he
          rw [h1] at hg
          exact Bool.noConfusion hg
      · by_cases h2 : cfg.regexImages (resolveHref (rootOf cfg) src)
        · simp only [imageCandidate, if_neg h0, if_neg h1, if_pos h2, Option.some.injEq]
          constructor
          · rintro rfl
            exact ⟨src, rfl, h0, Bool.of_not_eq_true h1 ▸ rfl, rfl, h2⟩
          · rintro ⟨s2, he, _, _, hr, _⟩
            subst he
            exact hr
        · simp only [imageCandidate, if_neg h0, if_neg h1, if_neg h2]
          constructor
          · intro h
            exact Option.noConfusion h
          · rintro ⟨s2, he, _, _, hr, hre⟩
            simp only [Option.some.injEq] at he
            subst he
            subst hr
            exact absurd hre h2

theorem mem_extractImagesUrls (cfg : Config) (page : Page) (u : String) :
    u ∈ extractImagesUrls cfg page ↔
      ∃ src, some src ∈ page.imgs ∧ src ≠ "" ∧ strEndsWith src ".gif" = false ∧
        resolveHref (rootOf cfg) src = u ∧ cfg.regexImages u = true := by
  simp only [extractImagesUrls, List.mem_toFinset, List.mem_filterMap]
  constructor
  · rintro ⟨o, ho, hc⟩
    obtain ⟨src, rfl, hprops⟩ := (imageCandidate_eq_some cfg o u).mp hc
    exact ⟨src, ho, hprops⟩
  · rintro ⟨src, hmem, h1, h2, h3, h4⟩
    exact ⟨some src, hmem,
      (imageCandidate_eq_some cfg (some src) u).mpr ⟨src, rfl, h1, h2, h3, h4⟩⟩

/-! ### Lemmas about `traceImages` -/

theorem traceImages_append (cfg : Config) (f : String → Page) (l1 l2 : List String) :
    traceImages cfg f (l1 ++ l2) = traceImages cfg f l1 ∪ traceImages cfg f l2 := by
  induction l1 with
  | nil => simp [traceImages]
  | cons a l ih => simp [traceImages, ih, Finset.union_assoc]

theorem mem_traceImages (cfg : Config) (f : String → Page) (l : List String) (u : String) :
    u ∈ traceImages cfg f l ↔
      ∃ p ∈ l, cfg.regexPages p = true ∧ u ∈ extractImagesUrls cfg (f p) := by
  induction l with
  | nil => simp [traceImages]
  | cons a l ih =>
    by_cases h : cfg.regexPages a
    · simp only [traceImages, if_pos h, Finset.mem_union, ih, List.mem_cons]
      constructor
      · rintro (hu | ⟨p, hp, hrp, hup⟩)
        · exact ⟨a, Or.inl rfl, h, hu⟩
        · exact ⟨p, Or.inr hp, hrp, hup⟩
      · rintro ⟨p, hp | hp, hrp, hup⟩
        · subst hp
          exact Or.inl hup
        · exact Or.inr ⟨p, hp, hrp, hup⟩
    · simp only [traceImages, if_neg h, Finset.empty_union, ih, List.mem_cons]
      constructor
      · rintro ⟨p, hp, hrp, hup⟩
        exact ⟨p, Or.inr hp, hrp, hup⟩
      · rintro ⟨p, hp | hp, hrp, hup⟩
        · subst hp
          exact absurd hrp h
        · exact ⟨p, hp, hrp, hup⟩

/-! ### The shape of a `scrape` loop run -/

theorem scrapeLoop_spec (cfg : Config) (f : String → Page) (ch : Choose) (n : Nat) :
    ∀ (s : CrawlState) (acc : Finset String) (tr : List String),
      ∃ t : List String,
        (scrapeLoop cfg f ch n s acc tr).trace = tr ++ t ∧
        (scrapeLoop cfg f ch n s acc tr).images = acc ∪ traceImages cfg f t ∧
        (scrapeLoop cfg f ch n s acc tr).state.explored = s.explored ∪ t.toFinset ∧
        (scrapeLoop cfg f ch n s acc tr).state.imagesUrls = s.imagesUrls ∧
        (scrapeLoop cfg f ch n s acc tr).state.downloaded = s.downloaded ∧
        (scrapeLoop cfg f ch n s acc tr).state.downloadedIdx = s.downloadedIdx ∧
        ∀ u ∈ (scrapeLoop cfg f ch n s acc tr).state.unexplored,
          u ∈ s.unexplored ∨ urlNetloc u = urlNetloc cfg.seed := by
  induction n with
  | zero =>
    intro s acc tr
    refine ⟨[], by simp [scrapeLoop], by simp [scrapeLoop, traceImages],
      by simp [scrapeLoop], rfl, rfl, rfl, ?_⟩
    intro u hu
    exact Or.inl hu
  | succ n ih =>
    intro s acc tr
    by_cases he : s.unexplored = ∅
    · refine ⟨[], by simp [scrapeLoop, he], by simp [scrapeLoop, he, traceImages],
        by simp [scrapeLoop, he], by simp [scrapeLoop, he], by simp [scrapeLoop, he],
        by simp [scrapeLoop, he], ?_⟩
      intro u hu
      simp only [scrapeLoop, if_pos he] at hu
      exact Or.inl hu
    · obtain ⟨t, h1, h2, h3, h4, h5, h6, h7⟩ :=
        ih (scrapeStep cfg (f (ch s.unexplored)) (ch s.unexplored) s acc).1
          (scrapeStep cfg (f (ch s.unexplored)) (ch s.unexplored) s acc).2
          (tr ++ [ch s.unexplored])
      have hun : (scrapeLoop cfg f ch (n + 1) s acc tr)
          = scrapeLoop cfg f ch n
              (scrapeStep cfg (f (ch s.unexplored)) (ch s.unexplored) s acc).1
              (scrapeStep cfg (f (ch s.unexplored)) (ch s.unexplored) s acc).2
              (tr ++ [ch s.unexplored]) := by
        rw [scrapeLoop]
        rw [if_neg he]
      rw [hun]
      refine ⟨ch s.unexplored :: t, ?_, ?_, ?_, ?_, ?_, ?_, ?_⟩
      · rw [h1, List.append_assoc]
        rfl
      · rw [h2]
        show (if cfg.regexPages (ch s.unexplored) then
            acc ∪ extractImagesUrls cfg (f (ch s.unexplored)) else acc)
            ∪ traceImages cfg f t = _
        by_cases hr : cfg.regexPages (ch s.unexplored)
        · simp [traceImages, hr, Finset.union_assoc]
        · simp [traceImages, hr]
      · rw [h3]
        show insert (ch s.unexplored) s.explored ∪ t.toFinset = _
        simp [List.toFinset_cons, Finset.union_insert, Finset.insert_union]
      · rw [h4]
        rfl
      · rw [h5]
        rfl
      · rw [h6]
        rfl
      · intro u hu
        rcases h7 u hu with hu2 | hu2
        · show u ∈ s.unexplored ∨ _
          have hu3 : u ∈ (s.unexplored.erase (ch s.unexplored))
              ∪ extractUnexploredPages cfg s.explored (f (ch s.unexplored)) := hu2
          rcases Finset.mem_union.mp hu3 with hu4 | hu4
          · exact Or.inl (Finset.mem_of_mem_erase hu4)
          · rw [mem_extractUnexploredPages] at hu4
            obtain ⟨_, _, _, _, _, hnet⟩ := hu4
            exact Or.inr hnet
        · exact Or.inr hu2

/-- The shape of one full `scrape` call: the returned set is the images of
the visited pages minus the already-known ones; the cumulative set grows by
exactly those images; `explored` grows by exactly the visited pages; the
download bookkeeping is untouched; and every new pending URL has the seed
netloc. -/
theorem scrape_spec (cfg : Config) (f : String → Page) (ch : Choose) (maxPages : Nat)
    (s : CrawlState) :
    (scrape cfg f ch maxPages s).images
        = traceImages cfg f (scrape cfg f ch maxPages s).trace \ s.imagesUrls ∧
    (scrape cfg f ch maxPages s).state.imagesUrls
        = s.imagesUrls ∪ traceImages cfg f (scrape cfg f ch maxPages s).trace ∧
    (scrape cfg f ch maxPages s).state.explored
        = s.explored ∪ (scrape cfg f ch maxPages s).trace.toFinset ∧
    (scrape cfg f ch maxPages s).state.unexplored
        = (scrapeLoop cfg f ch maxPages s ∅ []).state.unexplored ∧
    (scrape cfg f ch maxPages s).state.downloaded = s.downloaded ∧
    (scrape cfg f ch maxPages s).state.downloadedIdx = s.downloadedIdx ∧
    ∀ u ∈ (scrape cfg f ch maxPages s).state.unexplored,
      u ∈ s.unexplored ∨ urlNetloc u = urlNetloc cfg.seed := by
  obtain ⟨t, h1, h2, h3, h4, h5, h6, h7⟩ := scrapeLoop_spec cfg f ch maxPages s ∅ []
  have ht : (scrape cfg f ch maxPages s).trace = t := by
    rw [scrape]
    simpa using h1
  constructor
  · rw [ht]
    show (scrapeLoop cfg f ch maxPages s ∅ []).images \ s.imagesUrls = _
    rw [h2]
    simp
  constructor
  · rw [ht]
    show (scrapeLoop cfg f ch maxPages s ∅ []).state.imagesUrls
        ∪ (scrapeLoop cfg f ch maxPages s ∅ []).images = _
    rw [h2, h4]
    simp
  constructor
  · rw [ht]
    exact h3
  constructor
  · rfl
  constructor
  · exact h5
  constructor
  · exact h6
  · exact h7

/-- C5: for every `scrape` call, with `imagesThisCall` the union of the
image URLs extracted from the pages visited in that call whose URL matches
the page-filter regex, the call returns exactly `imagesThisCall` minus the
pre-call discovered set, and the post-call discovered set is the pre-call
one union `imagesThisCall`. -/
theorem scrape_returns_delta (cfg : Config) (f : String → Page) (ch : Choose)
    (maxPages : Nat) (s : CrawlState) :
    (scrape cfg f ch maxPages s).images
        = traceImages cfg f (scrape cfg f ch maxPages s).trace \ s.imagesUrls ∧
    (scrape cfg f ch maxPages s).state.imagesUrls
        = s.imagesUrls ∪ traceImages cfg f (scrape cfg f ch maxPages s).trace :=
  ⟨(scrape_spec cfg f ch maxPages s).1, (scrape_spec cfg f ch maxPages s).2.1⟩

/-- C4 counterexample: the source compares only netlocs, not schemes.  With
the https seed `https://e.com/`, a page carrying the link `http://e.com/p`
(same host, http scheme) does get that link added to `unexplored`, although
its resolved origin differs from the seed origin in scheme. -/
theorem link_filter_scheme_cex :
    "http://e.com/p" ∈ (scrape cfgB fetchScheme chooseMin 1 (initState cfgB)).state.unexplored
    ∧ urlScheme "http://e.com/p" ≠ urlScheme cfgB.seed
    ∧ urlNetloc "http://e.com/p" = urlNetloc cfgB.seed := by
  refine ⟨by decide, by decide, by decide⟩

/-- C4, amended: a link is kept by extraction only if its resolved netloc
(host) equals the seed netloc and it is not already explored; every URL in
`unexplored` after a `scrape` call was pending before the call or has the
seed netloc.  The scheme is not compared. -/
theorem link_filter_netloc_only :
    (∀ (cfg : Config) (E : Finset String) (page : Page) (u : String),
        u ∈ extractUnexploredPages cfg E page →
          urlNetloc u = urlNetloc cfg.seed ∧ u ∉ E) ∧
    (∀ (cfg : Config) (f : String → Page) (ch : Choose) (n : Nat) (s : CrawlState)
        (u : String),
        u ∈ (scrape cfg f ch n s).state.unexplored →
          u ∈ s.unexplored ∨ urlNetloc u = urlNetloc cfg.seed) := by
  constructor
  · intro cfg E page u hu
    rw [mem_extractUnexploredPages] at hu
    obtain ⟨h, _, _, _, hE, hnet⟩ := hu
    exact ⟨hnet, hE⟩
  · intro cfg f ch n s u hu
    exact (scrape_spec cfg f ch n s).2.2.2.2.2.2 u hu

theorem link_filter_netloc_only_witness :
    ("http://e.com/p" ∈ extractUnexploredPages cfgB ∅ (fetchScheme "x")) ∧
    (urlNetloc "http://e.com/p" = urlNetloc cfgB.seed ∧
      "http://e.com/p" ∉ (∅ : Finset String)) :=
  ⟨by decide, link_filter_netloc_only.1 cfgB ∅ (fetchScheme "x") "http://e.com/p" (by decide)⟩

/-! ### The gif exclusion -/

theorem suffix_of_suffix_length_le {l1 l2 l3 : List Char} (h1 : l1 <:+ l3)
    (h2 : l2 <:+ l3) (h : l1.length ≤ l2.length) : l1 <:+ l2 := by
  rw [← List.reverse_prefix] at h1 h2 ⊢
  exact List.prefix_of_prefix_length_le h1 h2 (by simpa using h)

/-- Resolution never introduces a `.gif` suffix: if the raw src does not end
in `.gif`, neither does the resolved URL. -/
theorem resolveHref_gif_free (root src : String) (h : strEndsWith src ".gif" = false) :
    strEndsWith (resolveHref root src) ".gif" = false := by
  have hng : ¬ (".gif".data <:+ src.data) := by
    intro hc
    rw [strEndsWith, decide_eq_false_iff_not] at h
    exact h hc
  rw [resolveHref]
  by_cases hs : strStartsWith src "/"
  · rw [if_pos hs]
    rw [strEndsWith, decide_eq_false_iff_not]
    intro hsuf
    rw [String.data_append] at hsuf
    have hsrc : src.data <:+ root.data ++ src.data := List.suffix_append root.data src.data
    rw [strStartsWith, decide_eq_true_eq] at hs
    obtain ⟨t, ht⟩ := hs
    by_cases hl : 4 ≤ src.data.length
    · exact hng (suffix_of_suffix_length_le hsuf hsrc hl)
    · have h4 : (".gif".data).length = 4 := by decide
      have hsg : src.data <:+ ".gif".data :=
        suffix_of_suffix_length_le hsrc hsuf (by omega)
      have hmem : '/' ∈ src.data := by
        rw [← ht]
        exact List.mem_append_left t (by decide)
      have : '/' ∈ ".gif".data := hsg.mem hmem
      exact absurd this (by decide)
  · rw [if_neg hs]
    exact h

/-- C9: an image source ending in `.gif` is skipped by extraction, and in
fact no URL ending in `.gif` is ever produced by image extraction or added
to the discovered set by `scrape`. -/
theorem gif_never_discovered :
    (∀ (cfg : Config) (page : Page) (u : String),
        u ∈ extractImagesUrls cfg page → strEndsWith u ".gif" = false) ∧
    (∀ (cfg : Config) (f : String → Page) (ch : Choose) (n : Nat) (s : CrawlState)
        (u : String),
        u ∈ (scrape cfg f ch n s).state.imagesUrls →
          u ∈ s.imagesUrls ∨ strEndsWith u ".gif" = false) := by
  have hbase : ∀ (cfg : Config) (page : Page) (u : String),
      u ∈ extractImagesUrls cfg page → strEndsWith u ".gif" = false := by
    intro cfg page u hu
    rw [mem_extractImagesUrls] at hu
    obtain ⟨src, _, _, hgif, hres, _⟩ := hu
    rw [← hres]
    exact resolveHref_gif_free (rootOf cfg) src hgif
  refine ⟨hbase, ?_⟩
  intro cfg f ch n s u hu
  rw [(scrape_spec cfg f ch n s).2.1] at hu
  rcases Finset.mem_union.mp hu with hu2 | hu2
  · exact Or.inl hu2
  · rw [mem_traceImages] at hu2
    obtain ⟨p, _, _, hup⟩ := hu2
    exact Or.inr (hbase cfg (f p) u hup)

theorem gif_never_discovered_witness :
    ("https://a.com/i.png" ∈ extractImagesUrls cfgA (fetchLeaf "x")) ∧
    strEndsWith "https://a.com/i.png" ".gif" = false :=
  ⟨by decide, gif_never_discovered.1 cfgA (fetchLeaf "x") "https://a.com/i.png" (by decide)⟩

/-! ### The self-link re-visitation defect -/

/-- C1: on a site whose seed page links to itself (href `/`), the seed is
fetched twice by one `scrape` call with a budget of two pages: the source
adds the popped URL to `explored` only after link extraction, so the
in-flight URL passes the not-yet-explored filter and re-enters `unexplored`. -/
theorem scrape_selflink_refetch_bug :
    (scrapeLoop cfgA fetchSelf chooseMin 2 (initState cfgA) ∅ []).trace
      = ["https://a.com/", "https://a.com/"]
    ∧ ("https://a.com/" ∈
        (scrape cfgA fetchSelf chooseMin 1 (initState cfgA)).state.explored
      ∧ "https://a.com/" ∈
        (scrape cfgA fetchSelf chooseMin 1 (initState cfgA)).state.unexplored) := by
  refine ⟨by decide, by decide, by decide⟩

/-- C2: on the same self-linking site, after one `scrape` call with budget 1
the sets `explored` and `unexplored` are not disjoint: the seed is in both. -/
theorem scrape_selflink_disjoint_bug :
    ¬ ((scrape cfgA fetchSelf chooseMin 1 (initState cfgA)).state.explored
        ∩ (scrape cfgA fetchSelf chooseMin 1 (initState cfgA)).state.unexplored = ∅) := by
  decide

/-! ### Order-independence of discovery (frontier closure) -/

theorem scrapeLoop_succ_ne (cfg : Config) (f : String → Page) (ch : Choose) (n : Nat)
    (s : CrawlState) (acc : Finset String) (tr : List String)
    (he : ¬ s.unexplored = ∅) :
    scrapeLoop cfg f ch (n + 1) s acc tr
      = scrapeLoop cfg f ch n
          (scrapeStep cfg (f (ch s.unexplored)) (ch s.unexplored) s acc).1
          (scrapeStep cfg (f (ch s.unexplored)) (ch s.unexplored) s acc).2
          (tr ++ [ch s.unexplored]) := by
  rw [scrapeLoop]
  rw [if_neg he]

theorem scrapeStep_EU_mono (cfg : Config) (page : Page) (url : String)
    (s : CrawlState) (acc : Finset String) :
    s.explored ∪ s.unexplored
      ⊆ (scrapeStep cfg page url s acc).1.explored
        ∪ (scrapeStep cfg page url s acc).1.unexplored := by
  intro x hx
  rcases Finset.mem_union.mp hx with hx | hx
  · have hx2 : x ∈ insert url s.explored := Finset.mem_insert_of_mem hx
    exact Finset.mem_union_left _ hx2
  · by_cases hxu : x = url
    · subst hxu
      exact Finset.mem_union_left _ (Finset.mem_insert_self _ _)
    · refine Finset.mem_union_right _ ?_
      show x ∈ (s.unexplored.erase url) ∪ extractUnexploredPages cfg s.explored page
      exact Finset.mem_union_left _ (Finset.mem_erase_of_ne_of_mem hxu hx)

theorem scrapeLoop_EU_mono (cfg : Config) (f : String → Page) (ch : Choose) (n : Nat) :
    ∀ (s : CrawlState) (acc : Finset String) (tr : List String),
      s.explored ∪ s.unexplored
        ⊆ (scrapeLoop cfg f ch n s acc tr).state.explored
          ∪ (scrapeLoop cfg f ch n s acc tr).state.unexplored := by
  induction n with
  | zero =>
    intro s acc tr x hx
    simpa [scrapeLoop] using hx
  | succ n ih =>
    intro s acc tr
    by_cases he : s.unexplored = ∅
    · intro x hx
      simpa [scrapeLoop, he] using hx
    · rw [scrapeLoop_succ_ne cfg f ch n s acc tr he]
      exact subset_trans (scrapeStep_EU_mono cfg (f (ch s.unexplored)) (ch s.unexplored) s acc)
        (ih _ _ _)

theorem scrapeLoop_bounded (cfg : Config) (f : String → Page) (ch : Choose)
    (hch : validChoose ch) (T : Finset String) (hcl : closedUnder cfg f T) (n : Nat) :
    ∀ (s : CrawlState) (acc : Finset String) (tr : List String),
      s.explored ∪ s.unexplored ⊆ T →
        (scrapeLoop cfg f ch n s acc tr).state.explored
          ∪ (scrapeLoop cfg f ch n s acc tr).state.unexplored ⊆ T := by
  induction n with
  | zero =>
    intro s acc tr h x hx
    exact h (by simpa [scrapeLoop] using hx)
  | succ n ih =>
    intro s acc tr h
    by_cases he : s.unexplored = ∅
    · intro x hx
      exact h (by simpa [scrapeLoop, he] using hx)
    · rw [scrapeLoop_succ_ne cfg f ch n s acc tr he]
      apply ih
      have hurl : ch s.unexplored ∈ s.unexplored := hch _ he
      have hurlT : ch s.unexplored ∈ T := h (Finset.mem_union_right _ hurl)
      intro x hx
      rcases Finset.mem_union.mp hx with hx | hx
      · have hx2 : x ∈ insert (ch s.unexplored) s.explored := hx
        rcases Finset.mem_insert.mp hx2 with rfl | hx3
        · exact hurlT
        · exact h (Finset.mem_union_left _ hx3)
      · have hx2 : x ∈ (s.unexplored.erase (ch s.unexplored))
            ∪ extractUnexploredPages cfg s.explored (f (ch s.unexplored)) := hx
        rcases Finset.mem_union.mp hx2 with hx3 | hx3
        · exact h (Finset.mem_union_right _ (Finset.mem_of_mem_erase hx3))
        · exact hcl _ hurlT
            (extract_subset_pageLinksAll cfg s.explored (f (ch s.unexplored)) hx3)

theorem scrapeStep_good (cfg : Config) (f : String → Page) (url : String)
    (s : CrawlState) (acc : Finset String) (h : goodState cfg f s) :
    goodState cfg f (scrapeStep cfg (f url) url s acc).1 := by
  intro p hp l hl
  have hp2 : p ∈ insert url s.explored := hp
  rcases Finset.mem_insert.mp hp2 with rfl | hp3
  · by_cases hle : l ∈ s.explored
    · exact Finset.mem_union_left _ (Finset.mem_insert_of_mem hle)
    · refine Finset.mem_union_right _ ?_
      show l ∈ (s.unexplored.erase p) ∪ extractUnexploredPages cfg s.explored (f p)
      exact Finset.mem_union_right _ (pageLinksAll_mem_extract cfg s.explored (f p) l hl hle)
  · have hlu : l ∈ s.explored ∪ s.unexplored := h p hp3 hl
    exact scrapeStep_EU_mono cfg (f url) url s acc hlu

theorem scrapeLoop_good (cfg : Config) (f : String → Page) (ch : Choose) (n : Nat) :
    ∀ (s : CrawlState) (acc : Finset String) (tr : List String),
      goodState cfg f s → goodState cfg f (scrapeLoop cfg f ch n s acc tr).state := by
  induction n with
  | zero =>
    intro s acc tr h
    simpa [scrapeLoop] using h
  | succ n ih =>
    intro s acc tr h
    by_cases he : s.unexplored = ∅
    · simpa [scrapeLoop, he] using h
    · rw [scrapeLoop_succ_ne cfg f ch n s acc tr he]
      exact ih _ _ _ (scrapeStep_good cfg f (ch s.unexplored) s acc h)

theorem scrapeSeq_cons (cfg : Config) (f : String → Page) (c : Nat × Choose)
    (cs : List (Nat × Choose)) (s : CrawlState) :
    scrapeSeq cfg f (c :: cs) s
      = ⟨(scrapeSeq cfg f cs (scrape cfg f c.2 c.1 s).state).state,
        (scrape cfg f c.2 c.1 s).images
          :: (scrapeSeq cfg f cs (scrape cfg f c.2 c.1 s).state).deltas,
        (scrape cfg f c.2 c.1 s).trace
          ++ (scrapeSeq cfg f cs (scrape cfg f c.2 c.1 s).state).trace⟩ := by
  rw [scrapeSeq]

theorem scrapeSeq_EU_mono (cfg : Config) (f : String → Page) :
    ∀ (calls : List (Nat × Choose)) (s : CrawlState),
      s.explored ∪ s.unexplored
        ⊆ (scrapeSeq cfg f calls s).state.explored
          ∪ (scrapeSeq cfg f calls s).state.unexplored := by
  intro calls
  induction calls with
  | nil =>
    intro s x hx
    simpa [scrapeSeq] using hx
  | cons c cs ih =>
    intro s
    rw [scrapeSeq_cons]
    refine subset_trans ?_ (ih (scrape cfg f c.2 c.1 s).state)
    show s.explored ∪ s.unexplored
      ⊆ (scrapeLoop cfg f c.2 c.1 s ∅ []).state.explored
        ∪ (scrapeLoop cfg f c.2 c.1 s ∅ []).state.unexplored
    exact scrapeLoop_EU_mono cfg f c.2 c.1 s ∅ []

theorem scrapeSeq_bounded (cfg : Config) (f : String → Page) (T : Finset String)
    (hcl : closedUnder cfg f T) :
    ∀ (calls : List (Nat × Choose)), (∀ c ∈ calls, validChoose c.2) →
    ∀ s : CrawlState, s.explored ∪ s.unexplored ⊆ T →
      (scrapeSeq cfg f calls s).state.explored
        ∪ (scrapeSeq cfg f calls s).state.unexplored ⊆ T := by
  intro calls
  induction calls with
  | nil =>
    intro _ s h x hx
    exact h (by simpa [scrapeSeq] using hx)
  | cons c cs ih =>
    intro hcalls s h
    rw [scrapeSeq_cons]
    apply ih (fun c2 h2 => hcalls c2 (List.mem_cons_of_mem c h2))
    show (scrapeLoop cfg f c.2 c.1 s ∅ []).state.explored
      ∪ (scrapeLoop cfg f c.2 c.1 s ∅ []).state.unexplored ⊆ T
    exact scrapeLoop_bounded cfg f c.2 (hcalls c (List.mem_cons_self c cs)) T hcl c.1
      s ∅ [] h

theorem scrapeSeq_good (cfg : Config) (f : String → Page) :
    ∀ (calls : List (Nat × Choose)) (s : CrawlState),
      goodState cfg f s → goodState cfg f (scrapeSeq cfg f calls s).state := by
  intro calls
  induction calls with
  | nil =>
    intro s h
    simpa [scrapeSeq] using h
  | cons c cs ih =>
    intro s h
    rw [scrapeSeq_cons]
    apply ih
    show goodState cfg f (scrapeLoop cfg f c.2 c.1 s ∅ []).state
    exact scrapeLoop_good cfg f c.2 c.1 s ∅ [] h

theorem scrapeSeq_images (cfg : Config) (f : String → Page) :
    ∀ (calls : List (Nat × Choose)) (s : CrawlState),
      (scrapeSeq cfg f calls s).state.explored
        = s.explored ∪ ((scrapeSeq cfg f calls s).trace).toFinset ∧
      (scrapeSeq cfg f calls s).state.imagesUrls
        = s.imagesUrls ∪ traceImages cfg f ((scrapeSeq cfg f calls s).trace) ∧
      s.imagesUrls ∪ unionDeltas ((scrapeSeq cfg f calls s).deltas)
        = (scrapeSeq cfg f calls s).state.imagesUrls := by
  intro calls
  induction calls with
  | nil =>
    intro s
    refine ⟨by simp [scrapeSeq], by simp [scrapeSeq, traceImages],
      by simp [scrapeSeq, unionDeltas]⟩
  | cons c cs ih =>
    intro s
    obtain ⟨ha, hb, hcd⟩ := ih (scrape cfg f c.2 c.1 s).state
    have sspec := scrape_spec cfg f c.2 c.1 s
    rw [scrapeSeq_cons]
    refine ⟨?_, ?_, ?_⟩
    · show (scrapeSeq cfg f cs (scrape cfg f c.2 c.1 s).state).state.explored = _
      rw [ha, sspec.2.2.1, List.toFinset_append, Finset.union_assoc]
    · show (scrapeSeq cfg f cs (scrape cfg f c.2 c.1 s).state).state.imagesUrls = _
      rw [hb, sspec.2.1, traceImages_append, Finset.union_assoc]
    · show s.imagesUrls ∪ ((scrape cfg f c.2 c.1 s).images
          ∪ unionDeltas ((scrapeSeq cfg f cs (scrape cfg f c.2 c.1 s).state).deltas))
        = (scrapeSeq cfg f cs (scrape cfg f c.2 c.1 s).state).state.imagesUrls
      rw [sspec.1, ← Finset.union_assoc, Finset.union_sdiff_self_eq_union,
        ← sspec.2.1, hcd]

theorem traceImages_eq_imagesOfSet (cfg : Config) (f : String → Page)
    (l : List String) :
    traceImages cfg f l = imagesOfSet cfg f l.toFinset := by
  ext u
  rw [mem_traceImages, imagesOfSet, Finset.mem_biUnion]
  constructor
  · rintro ⟨p, hp, hrp, hup⟩
    refine ⟨p, List.mem_toFinset.mpr hp, ?_⟩
    rw [if_pos hrp]
    exact hup
  · rintro ⟨p, hp, hup⟩
    by_cases hrp : cfg.regexPages p
    · rw [if_pos hrp] at hup
      exact ⟨p, List.mem_toFinset.mp hp, hrp, hup⟩
    · rw [if_neg hrp] at hup
      exact absurd hup (Finset.not_mem_empty u)

theorem initState_good (cfg : Config) (f : String → Page) :
    goodState cfg f (initState cfg) := by
  intro p hp
  exact absurd hp (Finset.not_mem_empty p)

theorem initState_EU (cfg : Config) (T : Finset String) (hseed : cfg.seed ∈ T) :
    (initState cfg).explored ∪ (initState cfg).unexplored ⊆ T := by
  intro x hx
  rcases Finset.mem_union.mp hx with hx | hx
  · exact absurd hx (Finset.not_mem_empty x)
  · have : x = cfg.seed := Finset.mem_singleton.mp hx
    subst this
    exact hseed

/-- A completed call sequence from the fresh state: the explored set is
link-closed, contains the seed, and determines the discovered images. -/
theorem scrapeSeq_completed (cfg : Config) (f : String → Page)
    (calls : List (Nat × Choose))
    (hend : (scrapeSeq cfg f calls (initState cfg)).state.unexplored = ∅) :
    closedUnder cfg f (scrapeSeq cfg f calls (initState cfg)).state.explored ∧
    cfg.seed ∈ (scrapeSeq cfg f calls (initState cfg)).state.explored ∧
    (scrapeSeq cfg f calls (initState cfg)).state.imagesUrls
      = imagesOfSet cfg f ((scrapeSeq cfg f calls (initState cfg)).state.explored) := by
  have hgood := scrapeSeq_good cfg f calls (initState cfg) (initState_good cfg f)
  refine ⟨?_, ?_, ?_⟩
  · intro p hp l hl
    have := hgood p hp hl
    rw [hend, Finset.union_empty] at this
    exact this
  · have hmono := scrapeSeq_EU_mono cfg f calls (initState cfg)
    have : cfg.seed ∈ (scrapeSeq cfg f calls (initState cfg)).state.explored
        ∪ (scrapeSeq cfg f calls (initState cfg)).state.unexplored := by
      apply hmono
      exact Finset.mem_union_right _ (Finset.mem_singleton_self cfg.seed)
    rwa [hend, Finset.union_empty] at this
  · obtain ⟨ha, hb, _⟩ := scrapeSeq_images cfg f calls (initState cfg)
    have hE : ((scrapeSeq cfg f calls (initState cfg)).trace).toFinset
        = (scrapeSeq cfg f calls (initState cfg)).state.explored := by
      rw [ha]
      show _ = (∅ : Finset String) ∪ _
      rw [Finset.empty_union]
    rw [hb, ← hE, traceImages_eq_imagesOfSet]
    show (∅ : Finset String) ∪ _ = _
    rw [Finset.empty_union]

/-- A completed single call from the fresh state, likewise. -/
theorem scrape_completed (cfg : Config) (f : String → Page) (ch : Choose) (fuel : Nat)
    (hend : (scrape cfg f ch fuel (initState cfg)).state.unexplored = ∅) :
    closedUnder cfg f (scrape cfg f ch fuel (initState cfg)).state.explored ∧
    cfg.seed ∈ (scrape cfg f ch fuel (initState cfg)).state.explored ∧
    (scrape cfg f ch fuel (initState cfg)).state.imagesUrls
      = imagesOfSet cfg f ((scrape cfg f ch fuel (initState cfg)).state.explored) := by
  have hgood : goodState cfg f (scrape cfg f ch fuel (initState cfg)).state := by
    show goodState cfg f
      { (scrapeLoop cfg f ch fuel (initState cfg) ∅ []).state with
        imagesUrls := _ }
    intro p hp l hl
    exact scrapeLoop_good cfg f ch fuel (initState cfg) ∅ []
      (initState_good cfg f) p hp hl
  refine ⟨?_, ?_, ?_⟩
  · intro p hp l hl
    have := hgood p hp hl
    rw [hend, Finset.union_empty] at this
    exact this
  · have hmono : (initState cfg).explored ∪ (initState cfg).unexplored
        ⊆ (scrape cfg f ch fuel (initState cfg)).state.explored
          ∪ (scrape cfg f ch fuel (initState cfg)).state.unexplored := by
      show _ ⊆ (scrapeLoop cfg f ch fuel (initState cfg) ∅ []).state.explored
        ∪ (scrapeLoop cfg f ch fuel (initState cfg) ∅ []).state.unexplored
      exact scrapeLoop_EU_mono cfg f ch fuel (initState cfg) ∅ []
    have : cfg.seed ∈ (scrape cfg f ch fuel (initState cfg)).state.explored
        ∪ (scrape cfg f ch fuel (initState cfg)).state.unexplored := by
      apply hmono
      exact Finset.mem_union_right _ (Finset.mem_singleton_self cfg.seed)
    rwa [hend, Finset.union_empty] at this
  · have sspec := scrape_spec cfg f ch fuel (initState cfg)
    have hE : ((scrape cfg f ch fuel (initState cfg)).trace).toFinset
        = (scrape cfg f ch fuel (initState cfg)).state.explored := by
      rw [sspec.2.2.1]
      show _ = (∅ : Finset String) ∪ _
      rw [Finset.empty_union]
    rw [sspec.2.1, ← hE, traceImages_eq_imagesOfSet]
    show (∅ : Finset String) ∪ _ = _
    rw [Finset.empty_union]

/-- C8: for a fixed page graph, any sequence of `scrape` calls from the
fresh state that drains the frontier yields, as the union of its per-call
returned sets, exactly the final cumulative discovered-image set; and that
final set coincides with the one produced by any single `scrape` call that
drains the frontier (the unbounded-budget call). -/
theorem scrape_discovery_idempotent (cfg : Config) (f : String → Page)
    (calls : List (Nat × Choose)) (ch : Choose) (fuel : Nat)
    (hcalls : ∀ c ∈ calls, validChoose c.2) (hch : validChoose ch)
    (hm : (scrapeSeq cfg f calls (initState cfg)).state.unexplored = ∅)
    (hs : (scrape cfg f ch fuel (initState cfg)).state.unexplored = ∅) :
    unionDeltas ((scrapeSeq cfg f calls (initState cfg)).deltas)
      = (scrapeSeq cfg f calls (initState cfg)).state.imagesUrls ∧
    (scrapeSeq cfg f calls (initState cfg)).state.imagesUrls
      = (scrape cfg f ch fuel (initState cfg)).state.imagesUrls := by
  constructor
  · have h3 := (scrapeSeq_images cfg f calls (initState cfg)).2.2
    have : (∅ : Finset String) ∪ unionDeltas ((scrapeSeq cfg f calls (initState cfg)).deltas)
        = (scrapeSeq cfg f calls (initState cfg)).state.imagesUrls := h3
    rwa [Finset.empty_union] at this
  · obtain ⟨hcl1, hseed1, him1⟩ := scrapeSeq_completed cfg f calls hm
    obtain ⟨hcl2, hseed2, him2⟩ := scrape_completed cfg f ch fuel hs
    have hsub1 : (scrapeSeq cfg f calls (initState cfg)).state.explored
        ⊆ (scrape cfg f ch fuel (initState cfg)).state.explored := by
      have hb := scrapeSeq_bounded cfg f _ hcl2 calls hcalls (initState cfg)
        (initState_EU cfg _ hseed2)
      intro x hx
      exact hb (Finset.mem_union_left _ hx)
    have hsub2 : (scrape cfg f ch fuel (initState cfg)).state.explored
        ⊆ (scrapeSeq cfg f calls (initState cfg)).state.explored := by
      have hb : (scrapeLoop cfg f ch fuel (initState cfg) ∅ []).state.explored
          ∪ (scrapeLoop cfg f ch fuel (initState cfg) ∅ []).state.unexplored
          ⊆ (scrapeSeq cfg f calls (initState cfg)).state.explored :=
        scrapeLoop_bounded cfg f ch hch _ hcl1 fuel (initState cfg) ∅ []
          (initState_EU cfg _ hseed1)
      intro x hx
      exact hb (Finset.mem_union_left _ hx)
    have hEeq : (scrapeSeq cfg f calls (initState cfg)).state.explored
        = (scrape cfg f ch fuel (initState cfg)).state.explored :=
      Finset.Subset.antisymm hsub1 hsub2
    rw [him1, him2, hEeq]

theorem scrape_discovery_idempotent_witness :
    (∀ c ∈ [(1, chooseMin)], validChoose c.2) ∧ validChoose chooseMin ∧
    (scrapeSeq cfgA fetchLeaf [(1, chooseMin)] (initState cfgA)).state.unexplored = ∅ ∧
    (scrape cfgA fetchLeaf chooseMin 1 (initState cfgA)).state.unexplored = ∅ ∧
    (unionDeltas ((scrapeSeq cfgA fetchLeaf [(1, chooseMin)] (initState cfgA)).deltas)
        = (scrapeSeq cfgA fetchLeaf [(1, chooseMin)] (initState cfgA)).state.imagesUrls ∧
      (scrapeSeq cfgA fetchLeaf [(1, chooseMin)] (initState cfgA)).state.imagesUrls
        = (scrape cfgA fetchLeaf chooseMin 1 (initState cfgA)).state.imagesUrls) := by
  have hcalls : ∀ c ∈ [(1, chooseMin)], validChoose c.2 := by
    intro c hc
    rw [List.mem_singleton] at hc
    subst hc
    exact chooseMin_valid
  refine ⟨hcalls, chooseMin_valid, by decide, by decide, ?_⟩
  exact scrape_discovery_idempotent cfgA fetchLeaf [(1, chooseMin)] chooseMin 1
    hcalls chooseMin_valid (by decide) (by decide)

/-! ### Error propagation in `scrape` -/

theorem scrapeLoopE_error_spec (cfg : Config) (fE : String → Except String Page)
    (ch : Choose) (n : Nat) :
    ∀ (s : CrawlState) (acc : Finset String) (tr : List String) (u : String)
      (sE : CrawlState) (trE : List String),
      scrapeLoopE cfg fE ch n s acc tr = .error (u, sE, trE) →
        sE.imagesUrls = s.imagesUrls ∧
        sE.downloaded = s.downloaded ∧
        sE.downloadedIdx = s.downloadedIdx ∧
        (∃ t, trE = tr ++ t ∧ sE.explored = s.explored ∪ t.toFinset) ∧
        u ∉ sE.unexplored ∧
        (∀ v ∈ s.unexplored, v = u ∨ v ∈ sE.explored ∨ v ∈ sE.unexplored) := by
  induction n with
  | zero =>
    intro s acc tr u sE trE h
    exact absurd h (by simp [scrapeLoopE])
  | succ n ih =>
    intro s acc tr u sE trE h
    by_cases he : s.unexplored = ∅
    · rw [scrapeLoopE, if_pos he] at h
      exact absurd h (by simp)
    · rw [scrapeLoopE, if_neg he] at h
      cases hf : fE (ch s.unexplored) with
      | error e =>
        simp only [hf] at h
        simp only [Except.error.injEq, Prod.mk.injEq] at h
        obtain ⟨hu, hs, ht⟩ := h
        subst hu
        subst hs
        subst ht
        refine ⟨rfl, rfl, rfl, ⟨[], by simp⟩, ?_, ?_⟩
        · exact Finset.not_mem_erase _ _
        · intro v hv
          by_cases hvu : v = ch s.unexplored
          · exact Or.inl hvu
          · exact Or.inr (Or.inr (Finset.mem_erase_of_ne_of_mem hvu hv))
      | ok page =>
        simp only [hf] at h
        obtain ⟨h1, h2, h3, ⟨t, ht1, ht2⟩, h5, h6⟩ :=
          ih (scrapeStep cfg page (ch s.unexplored) s acc).1
            (scrapeStep cfg page (ch s.unexplored) s acc).2
            (tr ++ [ch s.unexplored]) u sE trE h
        refine ⟨h1, h2, h3, ⟨ch s.unexplored :: t, ?_, ?_⟩, h5, ?_⟩
        · rw [ht1, List.append_assoc]
          rfl
        · rw [ht2]
          show insert (ch s.unexplored) s.explored ∪ t.toFinset = _
          simp [List.toFinset_cons, Finset.union_insert, Finset.insert_union]
        · intro v hv
          by_cases hvu : v = ch s.unexplored
          · subst hvu
            refine Or.inr (Or.inl ?_)
            rw [ht2]
            exact Finset.mem_union_left _ (Finset.mem_insert_self _ _)
          · have hv2 : v ∈ (scrapeStep cfg page (ch s.unexplored) s acc).1.unexplored := by
              show v ∈ (s.unexplored.erase (ch s.unexplored)) ∪ _
              exact Finset.mem_union_left _ (Finset.mem_erase_of_ne_of_mem hvu hv)
            rcases h6 v hv2 with hc | hc | hc
            · exact Or.inl hc
            · refine Or.inr (Or.inl ?_)
              rw [ht2] at hc ⊢
              rcases Finset.mem_union.mp hc with hc2 | hc2
              · exact Finset.mem_union_left _ hc2
              · exact Finset.mem_union_right _ hc2
            · exact Or.inr (Or.inr hc)

/-- C3, amended: when the fetch collaborator fails during a `scrape` call,
the exception surfaces with the offending URL; the pages fetched earlier in
the call are exactly the additions to `explored`, and the download
bookkeeping is untouched; but the image URLs extracted earlier in the call
are discarded (`imagesUrls` is unchanged), and the failing URL itself has
been popped from `unexplored` without being added to `explored` by that
iteration, so only that URL can drop out of the frontier. -/
theorem scrapeE_error_state (cfg : Config) (fE : String → Except String Page)
    (ch : Choose) (n : Nat) (s : CrawlState) (u : String) (sE : CrawlState)
    (trE : List String)
    (h : scrapeE cfg fE ch n s = .error (u, sE, trE)) :
    sE.imagesUrls = s.imagesUrls ∧
    sE.downloaded = s.downloaded ∧
    sE.downloadedIdx = s.downloadedIdx ∧
    sE.explored = s.explored ∪ trE.toFinset ∧
    u ∉ sE.unexplored ∧
    (∀ v ∈ s.unexplored, v = u ∨ v ∈ sE.explored ∨ v ∈ sE.unexplored) := by
  have hm : scrapeLoopE cfg fE ch n s ∅ [] = .error (u, sE, trE) := by
    cases hl : scrapeLoopE cfg fE ch n s ∅ [] with
    | error e =>
      rw [scrapeE, hl] at h
      simp only [Except.error.injEq] at h
      rw [h]
    | ok r =>
      rw [scrapeE, hl] at h
      exact absurd h (by simp)
  obtain ⟨h1, h2, h3, ⟨t, ht1, ht2⟩, h5, h6⟩ :=
    scrapeLoopE_error_spec cfg fE ch n s ∅ [] u sE trE hm
  simp only [List.nil_append] at ht1
  subst ht1
  exact ⟨h1, h2, h3, ht2, h5, h6⟩

/-- C3 counterexample: seed page holds the link `/b` and the image
`/i.png`; fetching `https://a.com/b` fails.  The aborted call leaves the
extracted image uncommitted (`imagesUrls` is empty although the image was
extracted from the seed page), and the failing URL is in neither
`unexplored` nor `explored` — so the claim that discovered-image mutations
survive and no page is lost fails on the code. -/
theorem scrapeE_partial_commit_cex :
    scrapeE cfgA fetchErr chooseMin 2 (initState cfgA)
      = Except.error ("https://a.com/b", errSt, ["https://a.com/"]) ∧
    "https://a.com/i.png" ∈ extractImagesUrls cfgA ⟨[some "/b"], [some "/i.png"]⟩ ∧
    errSt.imagesUrls = ∅ ∧
    "https://a.com/b" ∉ errSt.unexplored ∧
    "https://a.com/b" ∉ errSt.explored := by
  refine ⟨by rfl, by decide, by decide, by decide, by decide⟩

theorem scrapeE_error_state_witness :
    errSt.imagesUrls = (initState cfgA).imagesUrls ∧
    errSt.downloaded = (initState cfgA).downloaded ∧
    errSt.downloadedIdx = (initState cfgA).downloadedIdx ∧
    errSt.explored = (initState cfgA).explored ∪ (["https://a.com/"]).toFinset ∧
    "https://a.com/b" ∉ errSt.unexplored ∧
    (∀ v ∈ (initState cfgA).unexplored,
      v = "https://a.com/b" ∨ v ∈ errSt.explored ∨ v ∈ errSt.unexplored) :=
  scrapeE_error_state cfgA fetchErr chooseMin 2 (initState cfgA) "https://a.com/b"
    errSt ["https://a.com/"] (by rfl)

/-! ### download with a non-positive budget -/

/-- C10: `download` accepts any integer budget; with a budget at most zero
the loop body never runs, so no image is fetched, decoded or written and
the crawl state is unchanged — the only effect is the creation of the
output root directory when it is absent. -/
theorem download_nonpositive_noop (cfg : Config) (dims : String → Nat × Nat)
    (ch : Choose) (howMany : Int) (s : CrawlState) (dirs : Finset String)
    (h : howMany ≤ 0) :
    (download cfg dims ch howMany s dirs).state = s ∧
    (download cfg dims ch howMany s dirs).dirs = insert cfg.outputFolderpath dirs ∧
    (download cfg dims ch howMany s dirs).saved = [] ∧
    (download cfg dims ch howMany s dirs).attempts = [] := by
  have h0 : howMany.toNat = 0 := Int.toNat_of_nonpos h
  have hd : download cfg dims ch howMany s dirs
      = ⟨s, if cfg.outputFolderpath ∈ dirs then dirs
            else insert cfg.outputFolderpath dirs, [], []⟩ := by
    rw [download, h0]
    rfl
  rw [hd]
  refine ⟨rfl, ?_, rfl, rfl⟩
  by_cases hm : cfg.outputFolderpath ∈ dirs
  · show (if cfg.outputFolderpath ∈ dirs then dirs
      else insert cfg.outputFolderpath dirs) = _
    rw [if_pos hm]
    exact (Finset.insert_eq_self.mpr hm).symm
  · show (if cfg.outputFolderpath ∈ dirs then dirs
      else insert cfg.outputFolderpath dirs) = _
    rw [if_neg hm]

/-! ### The shape of a `download` loop run -/

theorem downloadLoop_spec (cfg : Config) (dims : String → Nat × Nat) (ch : Choose)
    (hch : validChoose ch) (n : Nat) :
    ∀ (s : CrawlState) (dirs : Finset String) (saved : List (String × String))
      (att : List String),
      ∃ anew : List String,
        (downloadLoop cfg dims ch n s dirs saved att).attempts = att ++ anew ∧
        anew.Nodup ∧
        (∀ u ∈ anew, u ∉ s.downloaded ∧ u ∈ s.imagesUrls) ∧
        (downloadLoop cfg dims ch n s dirs saved att).state.downloaded
          = s.downloaded ∪ anew.toFinset ∧
        (downloadLoop cfg dims ch n s dirs saved att).state.imagesUrls = s.imagesUrls ∧
        (downloadLoop cfg dims ch n s dirs saved att).state.explored = s.explored ∧
        (downloadLoop cfg dims ch n s dirs saved att).state.unexplored = s.unexplored ∧
        ∃ snew : List (String × String),
          (downloadLoop cfg dims ch n s dirs saved att).saved = saved ++ snew ∧
          snew.map Prod.fst = anew.filter
            (fun u => decide (cfg.minWidth ≤ (dims u).1 ∧ cfg.minHeight ≤ (dims u).2)) := by
  induction n with
  | zero =>
    intro s dirs saved att
    refine ⟨[], by simp [downloadLoop], List.nodup_nil, by simp, by simp [downloadLoop],
      rfl, rfl, rfl, [], by simp [downloadLoop], by simp⟩
  | succ n ih =>
    intro s dirs saved att
    by_cases hc : s.imagesUrls \ s.downloaded = ∅
    · refine ⟨[], by simp [downloadLoop, hc], List.nodup_nil, by simp,
        by simp [downloadLoop, hc], by simp [downloadLoop, hc], by simp [downloadLoop, hc],
        by simp [downloadLoop, hc], [], by simp [downloadLoop, hc], by simp⟩
    · have hurl := hch (s.imagesUrls \ s.downloaded) hc
      rw [Finset.mem_sdiff] at hurl
      by_cases hsz : cfg.minWidth ≤ (dims (ch (s.imagesUrls \ s.downloaded))).1 ∧
          cfg.minHeight ≤ (dims (ch (s.imagesUrls \ s.downloaded))).2
      · have hred : downloadLoop cfg dims ch (n + 1) s dirs saved att
            = downloadLoop cfg dims ch n
                { s with
                  downloaded := insert (ch (s.imagesUrls \ s.downloaded)) s.downloaded,
                  downloadedIdx := s.downloadedIdx + 1 }
                (dlFilepathDirs cfg s.downloadedIdx dirs
                  (dlFilename cfg (ch (s.imagesUrls \ s.downloaded)) s.downloadedIdx)).2
                (saved ++ [(ch (s.imagesUrls \ s.downloaded),
                  (dlFilepathDirs cfg s.downloadedIdx dirs
                    (dlFilename cfg (ch (s.imagesUrls \ s.downloaded))
                      s.downloadedIdx)).1)])
                (att ++ [ch (s.imagesUrls \ s.downloaded)]) := by
          rw [downloadLoop]
          simp only [if_neg hc, if_pos hsz]
        rw [hred]
        obtain ⟨anew, h1, h2, h3, h4, h5, h6, h7, snew, h8, h9⟩ := ih _ _ _ _
        refine ⟨ch (s.imagesUrls \ s.downloaded) :: anew, ?_, ?_, ?_, ?_, ?_, ?_, ?_,
          (ch (s.imagesUrls \ s.downloaded),
            (dlFilepathDirs cfg s.downloadedIdx dirs
              (dlFilename cfg (ch (s.imagesUrls \ s.downloaded))
                s.downloadedIdx)).1) :: snew, ?_, ?_⟩
        · rw [h1, List.append_assoc]
          rfl
        · refine List.nodup_cons.mpr ⟨?_, h2⟩
          intro hmem
          exact (h3 _ hmem).1 (Finset.mem_insert_self _ _)
        · intro u hu
          rcases List.mem_cons.mp hu with rfl | hmem
          · exact ⟨hurl.2, hurl.1⟩
          · exact ⟨fun hd => (h3 u hmem).1 (Finset.mem_insert_of_mem hd), (h3 u hmem).2⟩
        · rw [h4]
          show insert (ch (s.imagesUrls \ s.downloaded)) s.downloaded ∪ anew.toFinset = _
          simp [List.toFinset_cons, Finset.insert_union, Finset.union_insert]
        · rw [h5]
        · rw [h6]
        · rw [h7]
        · rw [h8, List.append_assoc]
          rfl
        · rw [List.map_cons, h9, List.filter_cons]
          simp [hsz]
      · have hred : downloadLoop cfg dims ch (n + 1) s dirs saved att
            = downloadLoop cfg dims ch n
                { s with
                  downloaded := insert (ch (s.imagesUrls \ s.downloaded)) s.downloaded }
                dirs saved (att ++ [ch (s.imagesUrls \ s.downloaded)]) := by
          rw [downloadLoop]
          simp only [if_neg hc, if_neg hsz]
        rw [hred]
        obtain ⟨anew, h1, h2, h3, h4, h5, h6, h7, snew, h8, h9⟩ := ih _ _ _ _
        refine ⟨ch (s.imagesUrls \ s.downloaded) :: anew, ?_, ?_, ?_, ?_, ?_, ?_, ?_,
          snew, h8, ?_⟩
        · rw [h1, List.append_assoc]
          rfl
        · refine List.nodup_cons.mpr ⟨?_, h2⟩
          intro hmem
          exact (h3 _ hmem).1 (Finset.mem_insert_self _ _)
        · intro u hu
          rcases List.mem_cons.mp hu with rfl | hmem
          · exact ⟨hurl.2, hurl.1⟩
          · exact ⟨fun hd => (h3 u hmem).1 (Finset.mem_insert_of_mem hd), (h3 u hmem).2⟩
        · rw [h4]
          show insert (ch (s.imagesUrls \ s.downloaded)) s.downloaded ∪ anew.toFinset = _
          simp [List.toFinset_cons, Finset.insert_union, Finset.union_insert]
        · rw [h5]
        · rw [h6]
        · rw [h7]
        · rw [h9, List.filter_cons]
          simp [hsz]

/-- The shape of one `download` call (no fetch-failure case: dimensions are
given by a total `dims`). -/
theorem download_spec (cfg : Config) (dims : String → Nat × Nat) (ch : Choose)
    (hch : validChoose ch) (hm : Int) (s : CrawlState) (dirs : Finset String) :
    ((download cfg dims ch hm s dirs).attempts).Nodup ∧
    (∀ u ∈ (download cfg dims ch hm s dirs).attempts,
      u ∉ s.downloaded ∧ u ∈ s.imagesUrls) ∧
    (download cfg dims ch hm s dirs).state.downloaded
      = s.downloaded ∪ ((download cfg dims ch hm s dirs).attempts).toFinset ∧
    (download cfg dims ch hm s dirs).state.imagesUrls = s.imagesUrls ∧
    ((download cfg dims ch hm s dirs).saved).map Prod.fst
      = ((download cfg dims ch hm s dirs).attempts).filter
          (fun u => decide (cfg.minWidth ≤ (dims u).1 ∧ cfg.minHeight ≤ (dims u).2)) := by
  obtain ⟨anew, h1, h2, h3, h4, h5, h6, h7, snew, h8, h9⟩ :=
    downloadLoop_spec cfg dims ch hch hm.toNat s
      (if cfg.outputFolderpath ∈ dirs then dirs else insert cfg.outputFolderpath dirs) [] []
  have hd : download cfg dims ch hm s dirs
      = downloadLoop cfg dims ch hm.toNat s
          (if cfg.outputFolderpath ∈ dirs then dirs
            else insert cfg.outputFolderpath dirs) [] [] := by
    rw [download]
  rw [hd]
  rw [List.nil_append] at h1
  rw [List.nil_append] at h8
  rw [h1, h8]
  exact ⟨h2, h3, h4, h5, h9⟩

theorem downloadSeq_spec (cfg : Config) (dims : String → Nat × Nat) :
    ∀ (calls : List (Int × Choose)), (∀ c ∈ calls, validChoose c.2) →
    ∀ (s : CrawlState) (dirs : Finset String),
      ((downloadSeq cfg dims calls s dirs).attempts).Nodup ∧
      (∀ u ∈ (downloadSeq cfg dims calls s dirs).attempts,
        u ∉ s.downloaded ∧ u ∈ s.imagesUrls) ∧
      (downloadSeq cfg dims calls s dirs).state.downloaded
        = s.downloaded ∪ ((downloadSeq cfg dims calls s dirs).attempts).toFinset ∧
      (downloadSeq cfg dims calls s dirs).state.imagesUrls = s.imagesUrls ∧
      ((downloadSeq cfg dims calls s dirs).saved).map Prod.fst
        = ((downloadSeq cfg dims calls s dirs).attempts).filter
            (fun u => decide (cfg.minWidth ≤ (dims u).1 ∧ cfg.minHeight ≤ (dims u).2)) := by
  intro calls
  induction calls with
  | nil =>
    intro _ s dirs
    refine ⟨List.nodup_nil, by simp [downloadSeq], by simp [downloadSeq], rfl, by simp [downloadSeq]⟩
  | cons c cs ih =>
    intro hcalls s dirs
    have hc : validChoose c.2 := hcalls c (List.mem_cons_self c cs)
    have hcs : ∀ c2 ∈ cs, validChoose c2.2 :=
      fun c2 h2 => hcalls c2 (List.mem_cons_of_mem c h2)
    obtain ⟨hd1, hd2, hd3, hd4, hd5⟩ := download_spec cfg dims c.2 hc c.1 s dirs
    obtain ⟨hb1, hb2, hb3, hb4, hb5⟩ :=
      ih hcs (download cfg dims c.2 c.1 s dirs).state
        (download cfg dims c.2 c.1 s dirs).dirs
    have hseq : downloadSeq cfg dims (c :: cs) s dirs
        = ⟨(downloadSeq cfg dims cs (download cfg dims c.2 c.1 s dirs).state
              (download cfg dims c.2 c.1 s dirs).dirs).state,
          (downloadSeq cfg dims cs (download cfg dims c.2 c.1 s dirs).state
              (download cfg dims c.2 c.1 s dirs).dirs).dirs,
          (download cfg dims c.2 c.1 s dirs).saved
            ++ (downloadSeq cfg dims cs (download cfg dims c.2 c.1 s dirs).state
              (download cfg dims c.2 c.1 s dirs).dirs).saved,
          (download cfg dims c.2 c.1 s dirs).attempts
            ++ (downloadSeq cfg dims cs (download cfg dims c.2 c.1 s dirs).state
              (download cfg dims c.2 c.1 s dirs).dirs).attempts⟩ := by
      rw [downloadSeq]
    rw [hseq]
    refine ⟨?_, ?_, ?_, ?_, ?_⟩
    · refine List.Nodup.append hd1 hb1 (List.disjoint_left.mpr ?_)
      intro u hu hu2
      refine (hb2 u hu2).1 ?_
      rw [hd3]
      exact Finset.mem_union_right _ (List.mem_toFinset.mpr hu)
    · intro u hu
      rcases List.mem_append.mp hu with hu2 | hu2
      · exact hd2 u hu2
      · obtain ⟨hnd, him⟩ := hb2 u hu2
        rw [hd3] at hnd
        rw [hd4] at him
        exact ⟨fun h2 => hnd (Finset.mem_union_left _ h2), him⟩
    · show (downloadSeq cfg dims cs _ _).state.downloaded = _
      rw [hb3, hd3, List.toFinset_append, Finset.union_assoc]
    · show (downloadSeq cfg dims cs _ _).state.imagesUrls = _
      rw [hb4, hd4]
    · show ((download cfg dims c.2 c.1 s dirs).saved
          ++ (downloadSeq cfg dims cs _ _).saved).map Prod.fst = _
      rw [List.map_append, List.filter_append, hd5, hb5]

/-- C6: across any sequence of `download` calls, the set of attempted
(fetched and decoded) image URLs has no repetition; every attempted URL
ends up in `downloaded` whatever the outcome of the size check; and a file
is written for an attempted URL exactly when both decoded dimensions reach
the configured minima. -/
theorem download_size_filter_at_most_once (cfg : Config) (dims : String → Nat × Nat)
    (calls : List (Int × Choose)) (s : CrawlState) (dirs : Finset String)
    (hcalls : ∀ c ∈ calls, validChoose c.2) :
    ((downloadSeq cfg dims calls s dirs).attempts).Nodup ∧
    ∀ u ∈ (downloadSeq cfg dims calls s dirs).attempts,
      u ∈ (downloadSeq cfg dims calls s dirs).state.downloaded ∧
      ((∃ p, (u, p) ∈ (downloadSeq cfg dims calls s dirs).saved) ↔
        (cfg.minWidth ≤ (dims u).1 ∧ cfg.minHeight ≤ (dims u).2)) := by
  obtain ⟨h1, h2, h3, h4, h5⟩ := downloadSeq_spec cfg dims calls hcalls s dirs
  refine ⟨h1, ?_⟩
  intro u hu
  refine ⟨?_, ?_, ?_⟩
  · rw [h3]
    exact Finset.mem_union_right _ (List.mem_toFinset.mpr hu)
  · rintro ⟨p, hp⟩
    have hmm : u ∈ ((downloadSeq cfg dims calls s dirs).saved).map Prod.fst :=
      List.mem_map.mpr ⟨(u, p), hp, rfl⟩
    rw [h5] at hmm
    have := (List.mem_filter.mp hmm).2
    simpa using this
  · intro hsz
    have hmm : u ∈ ((downloadSeq cfg dims calls s dirs).attempts).filter
        (fun u => decide (cfg.minWidth ≤ (dims u).1 ∧ cfg.minHeight ≤ (dims u).2)) :=
      List.mem_filter.mpr ⟨hu, decide_eq_true hsz⟩
    rw [← h5] at hmm
    obtain ⟨pr, hp, he⟩ := List.mem_map.mp hmm
    have hpr : (u, pr.2) = pr := by
      rw [← he]
    exact ⟨pr.2, hpr ▸ hp⟩

/-! ### Grouped/numerical naming of saved files -/

theorem downloadLoop_grouped (cfg : Config) (dims : String → Nat × Nat) (ch : Choose)
    (hg : cfg.outputStructure = OutputStructure.grouped)
    (hn : cfg.outputNaming = OutputNaming.numerical) (n : Nat) :
    ∀ (s : CrawlState) (dirs : Finset String) (saved : List (String × String))
      (att : List String),
      ∃ snew : List (String × String),
        (downloadLoop cfg dims ch n s dirs saved att).saved = saved ++ snew ∧
        (downloadLoop cfg dims ch n s dirs saved att).state.downloadedIdx
          = s.downloadedIdx + snew.length ∧
        ∀ i, i < snew.length →
          (snew.getD i ("", "")).2 = groupedPath cfg (s.downloadedIdx + i) := by
  induction n with
  | zero =>
    intro s dirs saved att
    exact ⟨[], by simp [downloadLoop], by simp [downloadLoop],
      fun i hi => absurd hi (by simp)⟩
  | succ n ih =>
    intro s dirs saved att
    by_cases hc : s.imagesUrls \ s.downloaded = ∅
    · exact ⟨[], by simp [downloadLoop, hc], by simp [downloadLoop, hc],
        fun i hi => absurd hi (by simp)⟩
    · by_cases hsz : cfg.minWidth ≤ (dims (ch (s.imagesUrls \ s.downloaded))).1 ∧
          cfg.minHeight ≤ (dims (ch (s.imagesUrls \ s.downloaded))).2
      · have hred : downloadLoop cfg dims ch (n + 1) s dirs saved att
            = downloadLoop cfg dims ch n
                { s with
                  downloaded := insert (ch (s.imagesUrls \ s.downloaded)) s.downloaded,
                  downloadedIdx := s.downloadedIdx + 1 }
                (dlFilepathDirs cfg s.downloadedIdx dirs
                  (dlFilename cfg (ch (s.imagesUrls \ s.downloaded)) s.downloadedIdx)).2
                (saved ++ [(ch (s.imagesUrls \ s.downloaded),
                  (dlFilepathDirs cfg s.downloadedIdx dirs
                    (dlFilename cfg (ch (s.imagesUrls \ s.downloaded))
                      s.downloadedIdx)).1)])
                (att ++ [ch (s.imagesUrls \ s.downloaded)]) := by
          rw [downloadLoop]
          simp only [if_neg hc, if_pos hsz]
        rw [hred]
        obtain ⟨snew, h1, h2, h3⟩ := ih _ _ _ _
        have hfp : (dlFilepathDirs cfg s.downloadedIdx dirs
            (dlFilename cfg (ch (s.imagesUrls \ s.downloaded)) s.downloadedIdx)).1
            = groupedPath cfg s.downloadedIdx := by
          simp [dlFilename, dlFilepathDirs, groupedPath, hg, hn]
        refine ⟨(ch (s.imagesUrls \ s.downloaded),
          (dlFilepathDirs cfg s.downloadedIdx dirs
            (dlFilename cfg (ch (s.imagesUrls \ s.downloaded))
              s.downloadedIdx)).1) :: snew, ?_, ?_, ?_⟩
        · rw [h1, List.append_assoc]
          rfl
        · rw [h2]
          show s.downloadedIdx + 1 + snew.length = s.downloadedIdx + (snew.length + 1)
          omega
        · intro i hi
          cases i with
          | zero =>
            rw [List.getD_cons_zero]
            show (dlFilepathDirs cfg s.downloadedIdx dirs
              (dlFilename cfg (ch (s.imagesUrls \ s.downloaded)) s.downloadedIdx)).1 = _
            rw [hfp]
            rfl
          | succ i =>
            rw [List.getD_cons_succ]
            have hlt : i < snew.length := by
              simp only [List.length_cons] at hi
              omega
            rw [h3 i hlt]
            show groupedPath cfg (s.downloadedIdx + 1 + i)
              = groupedPath cfg (s.downloadedIdx + (i + 1))
            have harg : s.downloadedIdx + 1 + i = s.downloadedIdx + (i + 1) := by omega
            rw [harg]
      · have hred : downloadLoop cfg dims ch (n + 1) s dirs saved att
            = downloadLoop cfg dims ch n
                { s with
                  downloaded := insert (ch (s.imagesUrls \ s.downloaded)) s.downloaded }
                dirs saved (att ++ [ch (s.imagesUrls \ s.downloaded)]) := by
          rw [downloadLoop]
          simp only [if_neg hc, if_neg hsz]
        rw [hred]
        obtain ⟨snew, h1, h2, h3⟩ := ih _ _ _ _
        exact ⟨snew, h1, h2, h3⟩

theorem download_grouped (cfg : Config) (dims : String → Nat × Nat) (ch : Choose)
    (hg : cfg.outputStructure = OutputStructure.grouped)
    (hn : cfg.outputNaming = OutputNaming.numerical) (hm : Int) (s : CrawlState)
    (dirs : Finset String) :
    (download cfg dims ch hm s dirs).state.downloadedIdx
      = s.downloadedIdx + (download cfg dims ch hm s dirs).saved.length ∧
    ∀ i, i < (download cfg dims ch hm s dirs).saved.length →
      ((download cfg dims ch hm s dirs).saved.getD i ("", "")).2
        = groupedPath cfg (s.downloadedIdx + i) := by
  obtain ⟨snew, h1, h2, h3⟩ := downloadLoop_grouped cfg dims ch hg hn hm.toNat s
    (if cfg.outputFolderpath ∈ dirs then dirs else insert cfg.outputFolderpath dirs) [] []
  have hd : download cfg dims ch hm s dirs
      = downloadLoop cfg dims ch hm.toNat s
          (if cfg.outputFolderpath ∈ dirs then dirs
            else insert cfg.outputFolderpath dirs) [] [] := by
    rw [download]
  rw [hd]
  rw [List.nil_append] at h1
  rw [h1]
  exact ⟨h2, h3⟩

theorem downloadSeq_grouped (cfg : Config) (dims : String → Nat × Nat)
    (hg : cfg.outputStructure = OutputStructure.grouped)
    (hn : cfg.outputNaming = OutputNaming.numerical) :
    ∀ (calls : List (Int × Choose)) (s : CrawlState) (dirs : Finset String),
      (downloadSeq cfg dims calls s dirs).state.downloadedIdx
        = s.downloadedIdx + (downloadSeq cfg dims calls s dirs).saved.length ∧
      ∀ i, i < (downloadSeq cfg dims calls s dirs).saved.length →
        ((downloadSeq cfg dims calls s dirs).saved.getD i ("", "")).2
          = groupedPath cfg (s.downloadedIdx + i) := by
  intro calls
  induction calls with
  | nil =>
    intro s dirs
    exact ⟨by simp [downloadSeq], fun i hi => absurd hi (by simp [downloadSeq])⟩
  | cons c cs ih =>
    intro s dirs
    obtain ⟨hd1, hd2⟩ := download_grouped cfg dims c.2 hg hn c.1 s dirs
    obtain ⟨hb1, hb2⟩ := ih (download cfg dims c.2 c.1 s dirs).state
      (download cfg dims c.2 c.1 s dirs).dirs
    have hseq : downloadSeq cfg dims (c :: cs) s dirs
        = ⟨(downloadSeq cfg dims cs (download cfg dims c.2 c.1 s dirs).state
              (download cfg dims c.2 c.1 s dirs).dirs).state,
          (downloadSeq cfg dims cs (download cfg dims c.2 c.1 s dirs).state
              (download cfg dims c.2 c.1 s dirs).dirs).dirs,
          (download cfg dims c.2 c.1 s dirs).saved
            ++ (downloadSeq cfg dims cs (download cfg dims c.2 c.1 s dirs).state
              (download cfg dims c.2 c.1 s dirs).dirs).saved,
          (download cfg dims c.2 c.1 s dirs).attempts
            ++ (downloadSeq cfg dims cs (download cfg dims c.2 c.1 s dirs).state
              (download cfg dims c.2 c.1 s dirs).dirs).attempts⟩ := by
      rw [downloadSeq]
    rw [hseq]
    constructor
    · show (downloadSeq cfg dims cs _ _).state.downloadedIdx
        = s.downloadedIdx + ((download cfg dims c.2 c.1 s dirs).saved
            ++ (downloadSeq cfg dims cs _ _).saved).length
      rw [hb1, hd1, List.length_append]
      omega
    · intro i hi
      have hi2 : i < (download cfg dims c.2 c.1 s dirs).saved.length
          + (downloadSeq cfg dims cs (download cfg dims c.2 c.1 s dirs).state
              (download cfg dims c.2 c.1 s dirs).dirs).saved.length := by
        have : i < ((download cfg dims c.2 c.1 s dirs).saved
            ++ (downloadSeq cfg dims cs (download cfg dims c.2 c.1 s dirs).state
              (download cfg dims c.2 c.1 s dirs).dirs).saved).length := hi
        rwa [List.length_append] at this
      by_cases hlt : i < (download cfg dims c.2 c.1 s dirs).saved.length
      · show (((download cfg dims c.2 c.1 s dirs).saved
            ++ (downloadSeq cfg dims cs _ _).saved).getD i ("", "")).2 = _
        rw [List.getD_append _ _ _ i hlt]
        exact hd2 i hlt
      · push_neg at hlt
        show (((download cfg dims c.2 c.1 s dirs).saved
            ++ (downloadSeq cfg dims cs _ _).saved).getD i ("", "")).2 = _
        rw [List.getD_append_right _ _ _ i hlt]
        have hi3 : i - (download cfg dims c.2 c.1 s dirs).saved.length
            < (downloadSeq cfg dims cs (download cfg dims c.2 c.1 s dirs).state
                (download cfg dims c.2 c.1 s dirs).dirs).saved.length := by
          omega
        rw [hb2 _ hi3]
        have harg : (download cfg dims c.2 c.1 s dirs).state.downloadedIdx
            + (i - (download cfg dims c.2 c.1 s dirs).saved.length)
            = s.downloadedIdx + i := by
          rw [hd1]
          omega
        rw [harg]

/-- C7: with grouped structure and numerical naming, starting from download
index 1, the (i+1)-st saved image (0-based i, counting only saves across
the whole call sequence) is written to
`outputRoot/zfill(i / imagesPerFolder + folderInitialNum, 4)/(i+1).jpg`;
with 100 images per folder and initial folder 1, saves 1..100 go to folder
`0001` as `1.jpg`..`100.jpg` and the 101st goes to `0002` as `101.jpg`,
however many images were size-skipped in between. -/
theorem download_grouped_numerical_paths (cfg : Config) (dims : String → Nat × Nat)
    (calls : List (Int × Choose)) (s : CrawlState) (dirs : Finset String)
    (hg : cfg.outputStructure = OutputStructure.grouped)
    (hn : cfg.outputNaming = OutputNaming.numerical)
    (hidx : s.downloadedIdx = 1) :
    ∀ i, i < (downloadSeq cfg dims calls s dirs).saved.length →
      ((downloadSeq cfg dims calls s dirs).saved.getD i ("", "")).2
        = osPathJoin (osPathJoin cfg.outputFolderpath
            (zfill (toString (i / cfg.imagesPerFolder + cfg.folderInitialNum)) 4))
          (toString (i + 1) ++ ".jpg") ∧
      (cfg.imagesPerFolder = 100 → cfg.folderInitialNum = 1 →
        ((i < 100 →
          ((downloadSeq cfg dims calls s dirs).saved.getD i ("", "")).2
            = osPathJoin (osPathJoin cfg.outputFolderpath "0001")
              (toString (i + 1) ++ ".jpg")) ∧
        (i = 100 →
          ((downloadSeq cfg dims calls s dirs).saved.getD i ("", "")).2
            = osPathJoin (osPathJoin cfg.outputFolderpath "0002") "101.jpg"))) := by
  intro i hi
  have hmain := (downloadSeq_grouped cfg dims hg hn calls s dirs).2 i hi
  rw [hidx] at hmain
  have h1 : ((downloadSeq cfg dims calls s dirs).saved.getD i ("", "")).2
      = osPathJoin (osPathJoin cfg.outputFolderpath
          (zfill (toString (i / cfg.imagesPerFolder + cfg.folderInitialNum)) 4))
        (toString (i + 1) ++ ".jpg") := by
    rw [hmain, groupedPath]
    have e1 : 1 + i - 1 = i := by omega
    have e2 : 1 + i = i + 1 := by omega
    rw [e1, e2]
  refine ⟨h1, ?_⟩
  intro h100 hinit
  constructor
  · intro hlt
    rw [h1, h100, hinit]
    have hz : i / 100 = 0 := Nat.div_eq_of_lt hlt
    rw [hz]
    have ez : zfill (toString (0 + 1)) 4 = "0001" := by decide
    rw [ez]
  · intro h100i
    subst h100i
    rw [h1, h100, hinit]
    have ez : zfill (toString (100 / 100 + 1)) 4 = "0002" := by decide
    have ej : toString (100 + 1) ++ ".jpg" = "101.jpg" := by decide
    rw [ez, ej]

theorem download_grouped_numerical_paths_witness :
    (cfgGN.outputStructure = OutputStructure.grouped ∧
      cfgGN.outputNaming = OutputNaming.numerical ∧ stImgs.downloadedIdx = 1 ∧
      0 < (downloadSeq cfgGN dimsBig [((5 : Int), chooseMin)] stImgs ∅).saved.length) ∧
    (((downloadSeq cfgGN dimsBig [((5 : Int), chooseMin)] stImgs ∅).saved.getD 0 ("", "")).2
        = osPathJoin (osPathJoin cfgGN.outputFolderpath
            (zfill (toString (0 / cfgGN.imagesPerFolder + cfgGN.folderInitialNum)) 4))
          (toString (0 + 1) ++ ".jpg") ∧
      (cfgGN.imagesPerFolder = 100 → cfgGN.folderInitialNum = 1 →
        ((0 < 100 →
          ((downloadSeq cfgGN dimsBig [((5 : Int), chooseMin)] stImgs ∅).saved.getD 0
              ("", "")).2
            = osPathJoin (osPathJoin cfgGN.outputFolderpath "0001")
              (toString (0 + 1) ++ ".jpg")) ∧
        ((0 : Nat) = 100 →
          ((downloadSeq cfgGN dimsBig [((5 : Int), chooseMin)] stImgs ∅).saved.getD 0
              ("", "")).2
            = osPathJoin (osPathJoin cfgGN.outputFolderpath "0002") "101.jpg")))) :=
  ⟨⟨rfl, rfl, rfl, by decide⟩,
    download_grouped_numerical_paths cfgGN dimsBig [((5 : Int), chooseMin)] stImgs ∅
      rfl rfl rfl 0 (by decide)⟩

theorem download_size_filter_at_most_once_witness :
    (∀ c ∈ [((5 : Int), chooseMin)], validChoose c.2) ∧
    (((downloadSeq cfgA dimsBig [((5 : Int), chooseMin)] stImgs ∅).attempts).Nodup ∧
      ∀ u ∈ (downloadSeq cfgA dimsBig [((5 : Int), chooseMin)] stImgs ∅).attempts,
        u ∈ (downloadSeq cfgA dimsBig [((5 : Int), chooseMin)] stImgs ∅).state.downloaded ∧
        ((∃ p, (u, p) ∈ (downloadSeq cfgA dimsBig [((5 : Int), chooseMin)] stImgs ∅).saved) ↔
          (cfgA.minWidth ≤ (dimsBig u).1 ∧ cfgA.minHeight ≤ (dimsBig u).2))) := by
  have hcalls : ∀ c ∈ [((5 : Int), chooseMin)], validChoose c.2 := by
    intro c hc
    rw [List.mem_singleton] at hc
    subst hc
    exact chooseMin_valid
  exact ⟨hcalls, download_size_filter_at_most_once cfgA dimsBig
    [((5 : Int), chooseMin)] stImgs ∅ hcalls⟩

theorem download_nonpositive_noop_witness :
    (-3 : Int) ≤ 0 ∧
    ((download cfgA dimsBig chooseMin (-3) stImgs ∅).state = stImgs ∧
      (download cfgA dimsBig chooseMin (-3) stImgs ∅).dirs
        = insert cfgA.outputFolderpath ∅ ∧
      (download cfgA dimsBig chooseMin (-3) stImgs ∅).saved = [] ∧
      (download cfgA dimsBig chooseMin (-3) stImgs ∅).attempts = []) :=
  ⟨by decide, download_nonpositive_noop cfgA dimsBig chooseMin (-3) stImgs ∅ (by decide)⟩

end Mega
